import Mathlib

set_option autoImplicit false
set_option maxRecDepth 16384

/-!
Shallow embedding of the promise / filter layer of the `remoteobjects`
repository (files `src/promise.py`, `src/remoteobjects/promise.py`) and of
the raw-mapping aliasing behaviour pinned by `src/tests/test_dataobject.py`.

Python byte strings are modelled as Lean `String`s; Python dicts are
modelled as insertion-ordered association lists (first occurrence of a key
is authoritative for lookup, assignment rewrites in place, fresh keys are
appended), matching the observable order the repository's own tests pin
for query-string construction.
-/

namespace RemoteObjects

/-- A Python dict (or any keyed mapping) as an insertion-ordered
association list. -/
abbrev AList (κ α : Type) := List (κ × α)

/-- Lookup: the value at the first occurrence of key `k`. -/
def alistGet? {κ α : Type} [DecidableEq κ] : AList κ α → κ → Option α
  | [], _ => none
  | (k', v) :: rest, k => if k' = k then some v else alistGet? rest k

/-- Python `d[k] = v`: rewrite the existing entry in place, else append. -/
def alistSet {κ α : Type} [DecidableEq κ] : AList κ α → κ → α → AList κ α
  | [], k, v => [(k, v)]
  | (k', v') :: rest, k, v =>
      if k' = k then (k', v) :: rest else (k', v') :: alistSet rest k v

/-- Python `d.update(ps)`: fold assignment over the new pairs. -/
def alistUpdate {κ α : Type} [DecidableEq κ] (d : AList κ α) (ps : AList κ α) : AList κ α :=
  ps.foldl (fun acc kv => alistSet acc kv.1 kv.2) d

/-- The keys of a mapping, in order. -/
def alistKeys {κ α : Type} (d : AList κ α) : List κ := d.map Prod.fst

@[simp] theorem alistGet?_nil {κ α : Type} [DecidableEq κ] (k : κ) :
    alistGet? ([] : AList κ α) k = none := rfl

@[simp] theorem alistGet?_cons {κ α : Type} [DecidableEq κ] (k' k : κ) (v : α) (rest : AList κ α) :
    alistGet? ((k', v) :: rest) k = if k' = k then some v else alistGet? rest k := rfl

@[simp] theorem alistKeys_nil {κ α : Type} : alistKeys ([] : AList κ α) = [] := rfl

@[simp] theorem alistKeys_cons {κ α : Type} (k : κ) (v : α) (d : AList κ α) :
    alistKeys ((k, v) :: d) = k :: alistKeys d := rfl

theorem alistGet?_alistSet_self {κ α : Type} [DecidableEq κ] (d : AList κ α) (k : κ) (v : α) :
    alistGet? (alistSet d k v) k = some v := by
  induction d with
  | nil => simp [alistSet]
  | cons hd tl ih =>
      obtain ⟨k', v'⟩ := hd
      by_cases h : k' = k <;> simp [alistSet, h, ih]

theorem alistGet?_alistSet_ne {κ α : Type} [DecidableEq κ] (d : AList κ α) (k k' : κ) (v : α)
    (h : k' ≠ k) : alistGet? (alistSet d k' v) k = alistGet? d k := by
  induction d with
  | nil => simp [alistSet, h]
  | cons hd tl ih =>
      obtain ⟨k'', v''⟩ := hd
      by_cases h2 : k'' = k' <;> by_cases h3 : k'' = k <;>
        simp_all [alistSet]

theorem alistGet?_alistUpdate_not_mem {κ α : Type} [DecidableEq κ]
    (ps : AList κ α) (d : AList κ α) (k : κ) (h : k ∉ alistKeys ps) :
    alistGet? (alistUpdate d ps) k = alistGet? d k := by
  induction ps generalizing d with
  | nil => rfl
  | cons hd tl ih =>
      obtain ⟨k', v'⟩ := hd
      rw [alistKeys_cons, List.mem_cons] at h
      push_neg at h
      have : alistGet? (alistUpdate (alistSet d k' v') tl) k
          = alistGet? (alistSet d k' v') k := ih _ h.2
      calc alistGet? (alistUpdate d ((k', v') :: tl)) k
        = alistGet? (alistUpdate (alistSet d k' v') tl) k := rfl
        _ = alistGet? (alistSet d k' v') k := this
        _ = alistGet? d k := alistGet?_alistSet_ne d k k' v' (Ne.symm h.1)

theorem alistGet?_alistUpdate_mem {κ α : Type} [DecidableEq κ]
    (ps : AList κ α) (d : AList κ α) (k : κ) (v : α)
    (hnd : (alistKeys ps).Nodup) (hmem : (k, v) ∈ ps) :
    alistGet? (alistUpdate d ps) k = some v := by
  induction ps generalizing d with
  | nil => cases hmem
  | cons hd tl ih =>
      obtain ⟨k', v'⟩ := hd
      rw [alistKeys_cons, List.nodup_cons] at hnd
      rcases List.mem_cons.mp hmem with heq | htl
      · injection heq with hk hv
        subst hk; subst hv
        calc alistGet? (alistUpdate d ((k, v) :: tl)) k
          = alistGet? (alistUpdate (alistSet d k v) tl) k := rfl
          _ = alistGet? (alistSet d k v) k := alistGet?_alistUpdate_not_mem tl _ k hnd.1
          _ = some v := alistGet?_alistSet_self d k v
      · exact ih (alistSet d k' v') hnd.2 htl

theorem alistKeys_alistSet_mem {κ α : Type} [DecidableEq κ] (d : AList κ α) (k : κ) (v : α)
    (h : k ∈ alistKeys d) : alistKeys (alistSet d k v) = alistKeys d := by
  induction d with
  | nil => cases h
  | cons hd tl ih =>
      obtain ⟨k', v'⟩ := hd
      by_cases h2 : k' = k
      · simp [alistSet, h2]
      · have hmem : k ∈ alistKeys tl := by
          rcases List.mem_cons.mp h with h3 | h3
          · exact absurd h3.symm h2
          · exact h3
        rw [alistSet, if_neg h2, alistKeys_cons, alistKeys_cons, ih hmem]

theorem alistKeys_alistSet_not_mem {κ α : Type} [DecidableEq κ] (d : AList κ α) (k : κ) (v : α)
    (h : k ∉ alistKeys d) : alistKeys (alistSet d k v) = alistKeys d ++ [k] := by
  induction d with
  | nil => simp [alistSet]
  | cons hd tl ih =>
      obtain ⟨k', v'⟩ := hd
      rw [alistKeys_cons, List.mem_cons] at h
      push_neg at h
      have h1 : k' ≠ k := Ne.symm h.1
      rw [alistSet, if_neg h1, alistKeys_cons, alistKeys_cons, ih h.2, List.cons_append]

theorem alistKeys_alistUpdate (ps : AList String String) (d : AList String String)
    (hnd : (alistKeys ps).Nodup) :
    alistKeys (alistUpdate d ps)
      = alistKeys d ++ (alistKeys ps).filter (fun k => k ∉ alistKeys d) := by
  induction ps generalizing d with
  | nil => simp [alistUpdate]
  | cons hd tl ih =>
      obtain ⟨k', v'⟩ := hd
      rw [alistKeys_cons, List.nodup_cons] at hnd
      have step : alistUpdate d ((k', v') :: tl) = alistUpdate (alistSet d k' v') tl := rfl
      by_cases hk : k' ∈ alistKeys d
      · rw [step, ih _ hnd.2, alistKeys_alistSet_mem d k' v' hk, alistKeys_cons,
          List.filter_cons]
        simp [hk]
      · rw [step, ih _ hnd.2, alistKeys_alistSet_not_mem d k' v' hk, alistKeys_cons,
          List.filter_cons]
        have hfil : (alistKeys tl).filter (fun x => decide (x ∉ alistKeys d ++ [k']))
            = (alistKeys tl).filter (fun x => decide (x ∉ alistKeys d)) := by
          apply List.filter_congr
          intro x hx
          have hxk : x ≠ k' := fun hxeq => hnd.1 (hxeq ▸ hx)
          simp [hxk]
        simp only [hfil, List.append_assoc]
        simp [hk]

/-! ### Python 2 query-string plumbing used by `filter`

`filter` (identical bodies in `src/promise.py` `ListObject.filter` and
`src/remoteobjects/promise.py` `PromiseObject.filter`) runs
`urlparse.urlparse`, `cgi.parse_qs(query, keep_blank_values=True)`, keeps
`v[0]` of each value list, `dict.update`s the keyword parameters,
`urllib.urlencode`s the result and `urlparse.urlunparse`s the new URL.
The standard-library helpers are modelled below after their Python 2
sources. -/

/-- One hexadecimal digit (either case), as in `urllib._hextochr`. -/
def hexDigit? (c : Char) : Option Nat :=
  if '0' ≤ c ∧ c ≤ '9' then some (c.toNat - '0'.toNat)
  else if 'a' ≤ c ∧ c ≤ 'f' then some (c.toNat - 'a'.toNat + 10)
  else if 'A' ≤ c ∧ c ≤ 'F' then some (c.toNat - 'A'.toNat + 10)
  else none

/-- `urllib.unquote`: decode `%XX` escapes; malformed escapes pass through
verbatim. -/
def unquoteChars : List Char → List Char
  | [] => []
  | '%' :: a :: b :: rest =>
      match hexDigit? a, hexDigit? b with
      | some ha, some hb => Char.ofNat (16 * ha + hb) :: unquoteChars rest
      | _, _ => '%' :: unquoteChars (a :: b :: rest)
  | c :: rest => c :: unquoteChars rest

/-- `str.replace('+', ' ')`, applied by `cgi.parse_qsl` before unquoting. -/
def plusToSpace (cs : List Char) : List Char :=
  cs.map fun c => if c = '+' then ' ' else c

/-- `urllib.always_safe` membership: ASCII letters, digits, `_.-`. -/
def alwaysSafe (c : Char) : Bool :=
  c.isAlpha || c.isDigit || c = '_' || c = '.' || c = '-'

/-- Upper-case hex digit, as in `urllib.quote`'s `'%%%02X'` format. -/
def hexUpper (n : Nat) : Char :=
  if n < 10 then Char.ofNat ('0'.toNat + n) else Char.ofNat ('A'.toNat + n - 10)

/-- `urllib.quote(s, safe)`: keep always-safe and `safe` characters, escape
the rest as `%XX`. -/
def quoteChar (safe : List Char) (c : Char) : List Char :=
  if alwaysSafe c || safe.contains c then [c]
  else ['%', hexUpper (c.toNat / 16), hexUpper (c.toNat % 16)]

def quoteChars (safe : List Char) (cs : List Char) : List Char :=
  cs.foldr (fun c acc => quoteChar safe c ++ acc) []

/-- `urllib.quote_plus` with its default `safe=''` (the default urlencode
uses): if the string contains a space, quote with the space kept safe and
then turn spaces into `+`; everything not always-safe — `/` included — is
`%XX`-escaped. -/
def quotePlusChars (cs : List Char) : List Char :=
  if cs.contains ' ' then
    (quoteChars [' '] cs).map fun c => if c = ' ' then '+' else c
  else quoteChars [] cs

/-- Python `s.split(sep)` for a one-character separator: split on every
occurrence, keeping empty chunks. -/
def splitOnChar (sep : Char) : List Char → List (List Char)
  | [] => [[]]
  | c :: rest =>
      if c = sep then [] :: splitOnChar sep rest
      else
        match splitOnChar sep rest with
        | [] => [[c]]
        | g :: gs => (c :: g) :: gs

/-- Python `s.split(sep, 1)` for a one-character separator: the text
before the first separator and, when the separator occurs, the rest. -/
def splitFirstChar (sep : Char) : List Char → List Char × Option (List Char)
  | [] => ([], none)
  | c :: rest =>
      if c = sep then ([], some rest)
      else
        match splitFirstChar sep rest with
        | (x, r) => (c :: x, r)

/-- `cgi.parse_qsl(qs, keep_blank_values=True)`: split on `&` and `;`,
drop empty chunks, split each chunk at its first `=` (missing `=` means an
empty value), `+`-to-space and `%`-unquote both halves. -/
def parseQsl (qs : String) : List (String × String) :=
  ((splitOnChar '&' qs.data).flatMap fun s1 => splitOnChar ';' s1).filterMap fun nv =>
    if nv = [] then none
    else
      let (name, value?) := splitFirstChar '=' nv
      some (String.mk (unquoteChars (plusToSpace name)),
        String.mk (unquoteChars (plusToSpace (value?.getD []))))

/-- One step of `cgi.parse_qs`'s grouping: append the value to the key's
list in place, or append a fresh singleton group. -/
def qsAdd (d : AList String (List String)) (k : String) (v : String) :
    AList String (List String) :=
  match d with
  | [] => [(k, [v])]
  | (k', vs) :: rest =>
      if k' = k then (k', vs ++ [v]) :: rest else (k', vs) :: qsAdd rest k v

/-- `cgi.parse_qs(qs, keep_blank_values=True)`: group the pair list by
key, keeping every value, first-occurrence key order. -/
def parseQs (qs : String) : AList String (List String) :=
  (parseQsl qs).foldl (fun d kv => qsAdd d kv.1 kv.2) []

/-- The dict comprehension in `filter`:
`dict([(k, v[0]) for k, v in queryargs.iteritems()])` — keep only the
first value of each key.  `parse_qs` never produces an empty value list,
so taking `head?` is exact. -/
def firstOnly (d : AList String (List String)) : AList String String :=
  d.filterMap fun kv => (kv.2.head?).map fun v => (kv.1, v)

/-- `urllib.urlencode` on a string-valued dict (its `str()` coercion is
the identity here because both keys and values are already strings):
`quote_plus(k) + '=' + quote_plus(v)` joined by `&`. -/
def urlencode (d : AList String String) : String :=
  String.intercalate "&" (d.map fun kv =>
    String.mk (quotePlusChars kv.1.data ++ '=' :: quotePlusChars kv.2.data))

/-! ### Python 2 `urlparse` -/

/-- The six components of `urlparse.urlparse`. -/
structure UrlParts where
  scheme : String
  netloc : String
  path : String
  params : String
  query : String
  fragment : String
deriving DecidableEq, Repr

/-- `urlparse.scheme_chars`. -/
def schemeChar (c : Char) : Bool :=
  c.isAlpha || c.isDigit || c = '+' || c = '-' || c = '.'

/-- `urlparse._splitnetloc`: the netloc extends to the first `/`, `?` or
`#`. -/
def splitnetloc (cs : List Char) : List Char × List Char :=
  match cs.findIdx? (fun c => c = '/' || c = '?' || c = '#') with
  | none => (cs, [])
  | some i => (cs.take i, cs.drop i)

/-- Scheme extraction of `urlparse.urlsplit`: a leading `name:` is a
scheme (lower-cased) when `name` is nonempty, made of scheme characters,
and either is exactly `"http"` (the fast path) or the remainder is not a
pure port number. -/
def splitScheme (url : List Char) : String × List Char :=
  match splitFirstChar ':' url with
  | (_, none) => ("", url)
  | (name, some rest) =>
      if name ≠ [] ∧ name.all schemeChar ∧
          (String.mk name = "http" ∨ rest = [] ∨ ¬ rest.all Char.isDigit) then
        (String.mk (name.map Char.toLower), rest)
      else ("", url)

/-- `urlparse.urlsplit` (scheme, then `//netloc`, then fragment, then
query), as run for the URLs this repository builds. -/
def urlsplitM (url : String) : UrlParts :=
  let (scheme, u1) := splitScheme url.data
  let (netloc, u2) :=
    match u1 with
    | '/' :: '/' :: rest => splitnetloc rest
    | _ => ([], u1)
  let (u3, fragment?) := splitFirstChar '#' u2
  let (path, query?) := splitFirstChar '?' u3
  ⟨scheme, String.mk netloc, String.mk path, "",
    String.mk (query?.getD []), String.mk (fragment?.getD [])⟩

/-- `urlparse.uses_params` membership. -/
def usesParams (scheme : String) : Bool :=
  ["", "ftp", "hdl", "prospero", "http", "imap", "https", "shttp", "rtsp",
    "rtspu", "sip", "sips", "mms", "sftp", "tel"].contains scheme

/-- `urlparse._splitparams`: split path parameters at the first `;` after
the last `/` (anywhere when there is no `/`). -/
def splitparams (path : String) : String × String :=
  let cs := path.data
  let start := if cs.contains '/' then
      (cs.length - 1) - ((cs.reverse.findIdx? (fun c => c = '/')).getD (cs.length - 1))
    else 0
  match (cs.drop start).findIdx? (fun c => c = ';') with
  | none => (path, "")
  | some i => (String.mk (cs.take (start + i)), String.mk (cs.drop (start + i + 1)))

/-- `urlparse.urlparse`. -/
def urlparseM (url : String) : UrlParts :=
  let s := urlsplitM url
  if usesParams s.scheme ∧ s.path.data.contains ';' then
    let (p, prm) := splitparams s.path
    { s with path := p, params := prm }
  else s

/-- `urlparse.urlunsplit`. -/
def urlunsplitM (scheme netloc url query fragment : String) : String :=
  let url :=
    if netloc ≠ "" ∨ url.data.take 2 = ['/', '/'] then
      "//" ++ netloc ++
        (if url ≠ "" ∧ url.data.head? ≠ some '/' then "/" ++ url else url)
    else url
  let url := if scheme ≠ "" then scheme ++ ":" ++ url else url
  let url := if query ≠ "" then url ++ "?" ++ query else url
  if fragment ≠ "" then url ++ "#" ++ fragment else url

/-- `urlparse.urlunparse`. -/
def urlunparseM (p : UrlParts) : String :=
  urlunsplitM p.scheme p.netloc
    (if p.params ≠ "" then p.path ++ ";" ++ p.params else p.path)
    p.query p.fragment

/-- `parse_qs` grouping step as a fold, with explicit accumulator. -/
def foldQs (acc : AList String (List String)) (l : List (String × String)) :
    AList String (List String) :=
  l.foldl (fun d kv => qsAdd d kv.1 kv.2) acc

/-- Every group `parse_qs` builds is nonempty. -/
def allNonempty (d : AList String (List String)) : Prop :=
  ∀ p ∈ d, p.2 ≠ []

/-- The ordered mapping `filter` builds from the current query string:
`parse_qs` then first value of each key. -/
def queryArgsOf (q : String) : AList String String := firstOnly (parseQs q)

/-- The merged query mapping — its *content*, which is independent of
dict iteration order: `queryargs.update(kwargs)`. -/
def mergedArgs (q : String) (params : AList String String) : AList String String :=
  alistUpdate (queryArgsOf q) params

/-! ### CPython 2 dict iteration order

The program runs on CPython 2, whose dicts iterate in *hash-slot* order,
not insertion order.  `urlencode` therefore serializes the merged query
in the order the final dict's hash table holds its keys.  The relevant
runtime pieces are modelled here: the 64-bit string hash, open
addressing with perturb probing, the ×4 resize at 2/3 fill, and
slot-order iteration.  Each dict `filter` builds is simulated from its
true insertion sequence: `parse_qs`'s dict is filled in query order, the
`dict([(k, v[0]) …])` comprehension is filled in the first dict's
iteration order, `update` inserts the keyword dict's keys in *its*
iteration order, and `urlencode` walks the final table. -/

/-- Arithmetic modulus of a 64-bit C `long` (the bit pattern, as `Nat`). -/
def pyMod : Nat := 2 ^ 64

/-- Bitwise XOR on 64-bit values, by explicit binary recursion. -/
def natXorAux : Nat → Nat → Nat → Nat
  | 0, _, _ => 0
  | fuel + 1, a, b =>
      (if a % 2 = b % 2 then 0 else 1) + 2 * natXorAux fuel (a / 2) (b / 2)

def natXor (a b : Nat) : Nat := natXorAux 64 a b

/-- CPython 2's `string_hash` on a 64-bit build (no hash randomization):
`x = s[0] << 7`, then for each byte `x = (1000003*x) ^ byte`, then
`x ^= len`, with `-1` mapped to `-2`; the empty string hashes to 0.  The
result is the unsigned 64-bit bit pattern, which is what slot selection
and perturbation use. -/
def pyHash (s : String) : Nat :=
  match s.data with
  | [] => 0
  | c0 :: _ =>
      let x0 := (c0.toNat * 128) % pyMod
      let x1 := s.data.foldl (fun x c => natXor ((1000003 * x) % pyMod) c.toNat) x0
      let x2 := natXor x1 s.data.length
      if x2 = pyMod - 1 then pyMod - 2 else x2

/-- One dict lookup by probing (`lookdict`): start at `hash & mask`, then
`i = 5*i + perturb + 1`, `perturb >>= 5`, all in `size_t` arithmetic;
stop at the first empty slot or the slot already holding the key.  The
table size is a power of two, so `& mask` is `% size`.  The fuel is
mathematically sufficient (after the perturbation dies the probe is a
full-period linear congruence), so the fallback is unreachable for the
never-full tables dicts maintain. -/
def probeLoop (table : List (Option String)) (key : String) :
    Nat → Nat → Nat → Option Nat
  | 0, _, _ => none
  | fuel + 1, i, perturb =>
      let slot := i % table.length
      match List.getD table slot none with
      | none => some slot
      | some k' =>
          if k' = key then some slot
          else probeLoop table key fuel ((5 * i + perturb + 1) % pyMod) (perturb / 32)

def findSlot (table : List (Option String)) (key : String) : Option Nat :=
  probeLoop table key (table.length + 64) (pyHash key % table.length) (pyHash key)

/-- `insertdict` for key layout: place the key at its probe slot (a no-op
slot rewrite when the key is already present). -/
def tableInsert (table : List (Option String)) (key : String) : List (Option String) :=
  match findSlot table key with
  | some slot => table.set slot (some key)
  | none => table

/-- `ma_used` (= `ma_fill`: no deletions happen here). -/
def tableUsed (table : List (Option String)) : Nat := (table.filterMap id).length

/-- `dictresize`'s size choice: the smallest power of two strictly above
`minused`, at least 8. -/
def growLoop : Nat → Nat → Nat → Nat
  | 0, n, _ => n
  | fuel + 1, n, minused => if n ≤ minused then growLoop fuel (2 * n) minused else n

def growSize (minused : Nat) : Nat := growLoop 64 8 minused

/-- `dictresize`: reinsert the entries, in old slot order, into a fresh
table of `growSize (4 * used)` slots. -/
def resizeTable (table : List (Option String)) : List (Option String) :=
  (table.filterMap id).foldl tableInsert
    (List.replicate (growSize (4 * tableUsed table)) none)

/-- `PyDict_SetItem`'s key effect: insert, then resize when a fresh key
brought the fill to 2/3 of the table. -/
def dictSetKey (table : List (Option String)) (key : String) : List (Option String) :=
  let t := tableInsert table key
  if tableUsed t > tableUsed table ∧ 3 * tableUsed t ≥ 2 * t.length then
    resizeTable t
  else t

/-- The iteration (slot) order of a CPython 2 dict whose keys were
inserted in the given sequence (repeats overwrite in place and do not
move a key). -/
def py2Order (keys : List String) : List String :=
  (keys.foldl dictSetKey (List.replicate 8 none)).filterMap id

/-- The key order in which `filter` serializes the merged query dict:
`parse_qs` fills a dict in query order; the comprehension dict is filled
in that dict's iteration order; `update` then inserts the keyword dict's
keys in the keyword dict's own iteration order; the result is walked in
slot order. -/
def filterKeyOrder (q : String) (params : AList String String) : List String :=
  let order1 := py2Order ((parseQsl q).map Prod.fst)
  let kwargsOrder := py2Order (params.map Prod.fst)
  ((order1 ++ kwargsOrder).foldl dictSetKey (List.replicate 8 none)).filterMap id

/-- A mapping's items in a given key order (the dict's content read out
in its iteration order). -/
def orderedItems (d : AList String String) (order : List String) : AList String String :=
  order.filterMap fun k => (alistGet? d k).map fun v => (k, v)

/-- The new location computed by `filter`: reparse, merge, re-encode in
the final dict's iteration order, reassemble. -/
def filterUrlOf (location : String) (params : AList String String) : String :=
  let parts := urlparseM location
  let merged := mergedArgs parts.query params
  urlunparseM { parts with
    query := urlencode (orderedItems merged (filterKeyOrder parts.query params)) }

/-! ### The promise state machine

State of a `PromiseObject` instance: `_delivered`, `_location`, `_http`
and the decoded data (`api_data` in `src/remoteobjects/promise.py`, the
field entries of `__dict__` in `src/promise.py`; one store models both).

Operations that can reach the transport return, besides their result, the
post-call state of the receiver and the number of transport requests the
call performed, so that "no request is made" and "exactly one request is
made" are stated as theorems. -/

/-- The HTTP transport collaborator, observed through the repository's
narrow interface: a URL produces a status code and a body.  `body?` is
the decoded mapping; `none` models a body on which response decoding
raises. -/
structure HttpResponse where
  status : Nat
  body? : Option (AList String String)

def Transport : Type := String → HttpResponse

/-- The two `PromiseError` conditions checked inside `deliver`. -/
inductive PromiseErr where
  | alreadyDelivered
  | noLocation
deriving DecidableEq, Repr

/-- Everything `deliver` can raise: its own `PromiseError`s, a
*response error* for a non-success status, or a body-decoding error. -/
inductive DeliveryFailure where
  | promised (e : PromiseErr)
  | responseError (url : String) (status : Nat)
  | decodeError (url : String)
deriving DecidableEq, Repr

structure PromiseState where
  delivered : Bool
  location : Option String
  http : Option Transport
  apiData : Option (AList String String)

/-- `src/remoteobjects/promise.py` `PromiseObject.__init__`: a delivered,
empty instance.  The `DataObject`/`HttpObject` part of the chain is not
under `src/`; modelled from the spec: direct construction yields a
delivered, empty instance with no location. -/
def initRemote : PromiseState :=
  { delivered := true, location := none, http := none, apiData := some [] }

/-- `src/promise.py` `PromiseObject.__init__`: this older variant starts
`_delivered = False`.  Superclass state modelled from the spec: no
location, no data. -/
def initOld : PromiseState :=
  { delivered := false, location := none, http := none, apiData := none }

/-- `src/remoteobjects/promise.py` `PromiseObject.get`: a fresh instance
with the URL and transport override installed and `_delivered = False`. -/
def getRemote (url : String) (http : Option Transport) : PromiseState :=
  { initRemote with delivered := false, location := some url, http := http }

/-- `src/promise.py` `PromiseObject.get`: same body; `_delivered` is
already `False` from this variant's `__init__`. -/
def getOld (url : String) (http : Option Transport) : PromiseState :=
  { initOld with location := some url, http := http }

/-- Modelled from the spec: response validation in the missing
`HttpObject.update_from_response` — the status must indicate success. -/
def statusOk (status : Nat) : Bool :=
  200 ≤ status && status < 300

/-- `PromiseObject.update_from_response` (both variants): run the
superclass update — modelled from the spec, `HttpObject`'s
`update_from_response` is not under `src/`: validate the status (else a
*response error* carrying URL and status), decode the body (else a decode
error), install the mapping — and only after it succeeds mark the
instance delivered. -/
def updateFromResponse (s : PromiseState) (url : String) (r : HttpResponse) :
    Except DeliveryFailure PromiseState :=
  if statusOk r.status then
    match r.body? with
    | some d => .ok { s with apiData := some d, delivered := true }
    | none => .error (.decodeError url)
  else .error (.responseError url r.status)

/-- `PromiseObject.deliver` (both variants agree): raise `PromiseError`
if already delivered, then if there is no location; only then perform the
single transport request and update from the response.  `ua` is the
module-level default transport (`remoteobjects.http.userAgent`) used when
`_http` is `None`.  Returns (outcome, receiver state after the call,
number of transport requests performed). -/
def deliver (ua : Transport) (s : PromiseState) :
    Except DeliveryFailure Unit × PromiseState × Nat :=
  if s.delivered then (.error (.promised .alreadyDelivered), s, 0)
  else
    match s.location with
    | none => (.error (.promised .noLocation), s, 0)
    | some url =>
        let http := s.http.getD ua
        match updateFromResponse s url (http url) with
        | .ok s' => (.ok (), s', 1)
        | .error e => (.error e, s, 1)

/-- What an attribute read can produce in `src/promise.py`'s
`__getattr__`: a value, a plain `AttributeError`, or an exception
propagated out of the implicit `deliver()`. -/
inductive AttrOutcome where
  | value (v : String)
  | attrError
  | raised (e : DeliveryFailure)

/-- `src/promise.py` `PromiseObject.__getattr__` (invoked on an attribute
miss): a name that is not a declared field raises `AttributeError` at
once; a declared field on an undelivered instance first runs `deliver()`
— whose exceptions propagate — and is then looked up in the instance's
data (`self.__dict__`, modelled by the installed mapping), raising
`AttributeError` only if even delivery did not set it. -/
def getattrPromise (ua : Transport) (fields : List String) (s : PromiseState)
    (attr : String) : AttrOutcome × PromiseState × Nat :=
  if attr ∈ fields then
    if s.delivered then (.attrError, s, 0)
    else
      match deliver ua s with
      | (.ok _, s', n) =>
          match alistGet? (s'.apiData.getD []) attr with
          | some v => (.value v, s', n)
          | none => (.attrError, s', n)
      | (.error e, s', n) => (.raised e, s', n)
  else (.attrError, s, 0)

/-- Field read through `src/remoteobjects/promise.py`'s `api_data`
property: `_get_api_data` delivers first when undelivered (exceptions
propagate), then the field descriptor — modelled from the spec, the
`fields` module is not under `src/`: a plain field decodes identically
from its wire name — reads the key out of `api_data`. -/
def readFieldRemote (ua : Transport) (s : PromiseState) (f : String) :
    Except DeliveryFailure (Option String) × PromiseState × Nat :=
  if s.delivered then (.ok (alistGet? (s.apiData.getD []) f), s, 0)
  else
    match deliver ua s with
    | (.ok _, s', n) => (.ok (alistGet? (s'.apiData.getD []) f), s', n)
    | (.error e, s', n) => (.error e, s', n)

/-- `filter` of `src/remoteobjects/promise.py` `PromiseObject`, at a
receiver whose `_location` is `u`: build the merged URL and return
`self.get(newurl, http=self._http)`.  The triple is (receiver state
after the call, the returned instance, transport requests performed) —
the body assigns nothing to `self` and performs no request. -/
def filterRemoteAt (s : PromiseState) (u : String) (params : AList String String) :
    PromiseState × PromiseState × Nat :=
  (s, getRemote (filterUrlOf u params) s.http, 0)

/-- `filter` of `src/promise.py` `ListObject`: the identical body, with
this variant's `get`. -/
def filterListAt (s : PromiseState) (u : String) (params : AList String String) :
    PromiseState × PromiseState × Nat :=
  (s, getOld (filterUrlOf u params) s.http, 0)

/-- A `__getitem__` key: a `start:stop` slice or a single ordinal. -/
inductive ItemKey where
  | slice (start stop : Int)
  | ordinal (i : Int)

/-- What `ListObject.__getitem__` produces: a new filtered view, or the
`TypeError` it raises for ordinal keys (no class in the repository's
chain supplies an ordinal `__getitem__`, so the `AttributeError` branch
is always taken). -/
inductive ItemOutcome where
  | view (o : PromiseState)
  | typeErrorRaised

/-- `src/promise.py` `ListObject.__getitem__` at a receiver located at
`u`: a slice becomes `filter(offset=start, limit=stop-start)` (the
integers pass through `str()`); any other key raises `TypeError`. -/
def listGetitemAt (s : PromiseState) (u : String) (k : ItemKey) : ItemOutcome × Nat :=
  match k with
  | .slice a b =>
      (.view (filterListAt s u [("offset", toString a), ("limit", toString (b - a))]).2.1, 0)
  | .ordinal _ => (.typeErrorRaised, 0)

/-! ### Raw-mapping aliasing (`DataObject.from_dict` / `to_dict`)

`DataObject` itself is not under `src/`; its raw-mapping handling is
modelled from the spec and from the behaviour the in-src test
`tests/test_dataobject.py::test_spooky_action` pins: `from_dict` retains
the caller's mapping *by reference* (the test asserts that mutating a
top-level key of the original mapping afterwards *does* change the
instance's data), and `to_dict` hands out a copy that is independent of
the instance at every depth (the test asserts that neither shallow nor
deep mutation of the exported mapping changes the instance).

Python mappings that can be shared are heap cells.  Nesting in the test
is one level deep, so the heap is two-sorted: top-level dicts whose
values are strings or references to nested dicts, and nested
string-to-string dicts. -/

abbrev Addr := Nat

/-- A value in a top-level raw mapping: a scalar or a reference to a
nested mutable mapping. -/
inductive RawVal where
  | str (s : String)
  | sub (a : Addr)
deriving DecidableEq, Repr

/-- The mutable store: top-level mappings and nested mappings, by
address. -/
structure Heap where
  tops : AList Addr (AList String RawVal)
  subs : AList Addr (AList String String)
deriving Repr

/-- Python `m[k] = v` on a top-level mapping. -/
def setTop (h : Heap) (a : Addr) (k : String) (v : RawVal) : Heap :=
  { h with tops := alistSet h.tops a (alistSet ((alistGet? h.tops a).getD []) k v) }

/-- Python `m[k] = v` on a nested mapping (`initial['secret']['code'] = …`). -/
def setSub (h : Heap) (a : Addr) (k : String) (v : String) : Heap :=
  { h with subs := alistSet h.subs a (alistSet ((alistGet? h.subs a).getD []) k v) }

/-- `DataObject.from_dict(m)` — modelled from the spec and
`test_spooky_action`: the instance retains the caller's mapping by
reference, so the instance *is* (the address of) the mapping it was
built from. -/
def fromDict (m : Addr) : Addr := m

/-- Reading a declared field off an instance: the value at the field's
key in the retained raw mapping (plain fields decode identically). -/
def fieldRead (h : Heap) (inst : Addr) (k : String) : Option RawVal :=
  (alistGet? h.tops inst).bind fun d => alistGet? d k

/-- A fully-resolved mapping value, as observed in `to_dict` output. -/
inductive DeepVal where
  | str (s : String)
  | map (d : AList String String)
deriving DecidableEq, Repr

/-- Resolve a raw value against the current heap. -/
def deepOf (h : Heap) (v : RawVal) : DeepVal :=
  match v with
  | .str s => .str s
  | .sub a => .map ((alistGet? h.subs a).getD [])

/-- The value `DataObject.to_dict()` returns, observed immediately:
`to_dict` deep-copies the retained raw mapping (per `test_spooky_action`,
mutating the export never affects the instance), so its content is the
deep resolution of the instance's mapping at the current heap. -/
def toDictVal (h : Heap) (inst : Addr) : AList String DeepVal :=
  (((alistGet? h.tops inst).getD []).map fun kv => (kv.1, deepOf h kv.2))

theorem alistGet?_map_value {α β : Type} (d : AList String α) (f : α → β) (k : String) :
    alistGet? (d.map fun kv => (kv.1, f kv.2)) k = (alistGet? d k).map f := by
  induction d with
  | nil => rfl
  | cons hd tl ih =>
      obtain ⟨k', v'⟩ := hd
      by_cases h : k' = k <;> simp [alistGet?, h, ih]

/-! ### Concrete transports, for instantiating the theorems -/

/-- A transport answering 200 with the body of the repository's basic
promise test. -/
def mockTransport : Transport := fun _ => ⟨200, some [("name", "Mollifred")]⟩

/-- A transport answering 404. -/
def notFoundTransport : Transport := fun _ => ⟨404, some []⟩

/-- A transport answering 200 with an undecodable body. -/
def garbageTransport : Transport := fun _ => ⟨200, none⟩

/-- `update_from_response` can only fail with a response or decode error,
never with one of `deliver`'s own `PromiseError`s. -/
theorem updateFromResponse_ne_promised (s : PromiseState) (u : String)
    (r : HttpResponse) (pe : PromiseErr) :
    updateFromResponse s u r ≠ .error (.promised pe) := by
  unfold updateFromResponse
  by_cases hst : statusOk r.status
  · cases hb : r.body? <;> simp [hst, hb]
  · simp [hst]

/-- C1: `PromiseObject.get(u, http=h)` returns an undelivered instance
with `_location = u` and `_http = h` whose data is untouched (no
transport request happens at construction), and the first read of a
declared field performs exactly one transport request via `deliver()`,
leaves the instance delivered, and yields the delivered value. -/
theorem c1_get_undelivered_then_first_read_delivers_once
    (u : String) (h : Option Transport) (ua : Transport) (f : String)
    (d : AList String String)
    (hok : statusOk ((h.getD ua) u).status = true)
    (hbody : ((h.getD ua) u).body? = some d) :
    (getRemote u h).delivered = false ∧
    (getRemote u h).location = some u ∧
    (getRemote u h).http = h ∧
    (getRemote u h).apiData = initRemote.apiData ∧
    (readFieldRemote ua (getRemote u h) f).2.2 = 1 ∧
    (readFieldRemote ua (getRemote u h) f).2.1.delivered = true ∧
    (readFieldRemote ua (getRemote u h) f).1 = .ok (alistGet? d f) := by
  refine ⟨rfl, rfl, rfl, rfl, ?_, ?_, ?_⟩ <;>
    simp [readFieldRemote, getRemote, initRemote, deliver, updateFromResponse, hok, hbody]

/-- Witness for C1: the basic test's URL and transport, field `name`. -/
theorem c1_witness :
    (getRemote "http://example.com/whahay" (some mockTransport)).delivered = false ∧
    (getRemote "http://example.com/whahay" (some mockTransport)).location
      = some "http://example.com/whahay" ∧
    (getRemote "http://example.com/whahay" (some mockTransport)).http
      = some mockTransport ∧
    (getRemote "http://example.com/whahay" (some mockTransport)).apiData
      = initRemote.apiData ∧
    (readFieldRemote mockTransport
      (getRemote "http://example.com/whahay" (some mockTransport)) "name").2.2 = 1 ∧
    (readFieldRemote mockTransport
      (getRemote "http://example.com/whahay" (some mockTransport)) "name").2.1.delivered
      = true ∧
    (readFieldRemote mockTransport
      (getRemote "http://example.com/whahay" (some mockTransport)) "name").1
      = .ok (alistGet? [("name", "Mollifred")] "name") :=
  c1_get_undelivered_then_first_read_delivers_once
    "http://example.com/whahay" (some mockTransport) mockTransport "name"
    [("name", "Mollifred")] rfl rfl

/-- C2: `deliver()` raises `PromiseError` when the instance is already
delivered, and when it has no location; in both cases no transport
request is made and the state is returned unchanged. -/
theorem c2_deliver_rejects_before_any_transport (ua : Transport) (s : PromiseState) :
    (s.delivered = true →
      deliver ua s = (.error (.promised .alreadyDelivered), s, 0)) ∧
    (s.delivered = false → s.location = none →
      deliver ua s = (.error (.promised .noLocation), s, 0)) := by
  constructor
  · intro hd; simp [deliver, hd]
  · intro hd hl; simp [deliver, hd, hl]

/-- Witness for C2: a delivered empty instance, and an undelivered
instance with no location. -/
theorem c2_witness :
    deliver mockTransport initRemote
      = (.error (.promised .alreadyDelivered), initRemote, 0) ∧
    deliver mockTransport initOld
      = (.error (.promised .noLocation), initOld, 0) :=
  ⟨(c2_deliver_rejects_before_any_transport mockTransport initRemote).1 rfl,
   (c2_deliver_rejects_before_any_transport mockTransport initOld).2 rfl rfl⟩

/-- C3: when the transport call happens but response validation or body
decoding fails, `deliver` reports the failure, the state is unchanged
(still undelivered: `_delivered` is set only after the update succeeds),
and retrying `deliver()` is never rejected as already delivered. -/
theorem c3_failed_delivery_leaves_undelivered (ua : Transport) (s : PromiseState)
    (u : String) (hdel : s.delivered = false) (hloc : s.location = some u)
    (hbad : statusOk ((s.http.getD ua) u).status = false ∨
      ((s.http.getD ua) u).body? = none) :
    (∃ e, (deliver ua s).1 = .error e) ∧
    (deliver ua s).2.1 = s ∧
    (deliver ua s).2.2 = 1 ∧
    (∀ ua', (deliver ua' ((deliver ua s).2.1)).1
      ≠ .error (.promised .alreadyDelivered)) := by
  have hupd : ∃ e, updateFromResponse s u ((s.http.getD ua) u) = .error e := by
    rcases hbad with hst | hb
    · exact ⟨.responseError u ((s.http.getD ua) u).status,
        by simp [updateFromResponse, hst]⟩
    · by_cases hst : statusOk ((s.http.getD ua) u).status
      · exact ⟨.decodeError u, by simp [updateFromResponse, hst, hb]⟩
      · exact ⟨.responseError u ((s.http.getD ua) u).status,
          by simp [updateFromResponse, hst]⟩
  obtain ⟨e, he⟩ := hupd
  have hdeliver : deliver ua s = (.error e, s, 1) := by
    simp [deliver, hdel, hloc, he]
  refine ⟨⟨e, by rw [hdeliver]⟩, by rw [hdeliver], by rw [hdeliver], ?_⟩
  intro ua'
  rw [hdeliver]
  show (deliver ua' s).1 ≠ .error (.promised .alreadyDelivered)
  rcases hupd' : updateFromResponse s u ((s.http.getD ua') u) with e' | s'
  · simp [deliver, hdel, hloc, hupd']
    intro hcontr
    exact absurd (hcontr ▸ hupd') (updateFromResponse_ne_promised s u _ _)
  · simp [deliver, hdel, hloc, hupd']

/-- Witness for C3: an undelivered instance whose transport answers 404. -/
theorem c3_witness :
    (∃ e, (deliver mockTransport
      (getRemote "http://example.com/whahay" (some notFoundTransport))).1
        = .error e) ∧
    (deliver mockTransport
      (getRemote "http://example.com/whahay" (some notFoundTransport))).2.1
      = getRemote "http://example.com/whahay" (some notFoundTransport) ∧
    (deliver mockTransport
      (getRemote "http://example.com/whahay" (some notFoundTransport))).2.2 = 1 ∧
    (∀ ua', (deliver ua' ((deliver mockTransport
      (getRemote "http://example.com/whahay" (some notFoundTransport))).2.1)).1
        ≠ .error (.promised .alreadyDelivered)) :=
  c3_failed_delivery_leaves_undelivered mockTransport
    (getRemote "http://example.com/whahay" (some notFoundTransport))
    "http://example.com/whahay" rfl rfl (Or.inl rfl)

/-- C8: reading a name that is no declared field raises `AttributeError`
at once, with no transport request; reading a declared field on an
undelivered instance first runs `deliver()`, and a delivery failure
propagates to the reader as that failure, not as an attribute error. -/
theorem c8_getattr_delivers_and_propagates (ua : Transport) (fields : List String)
    (s : PromiseState) (attr : String) (e : DeliveryFailure) :
    (attr ∉ fields → getattrPromise ua fields s attr = (.attrError, s, 0)) ∧
    (attr ∈ fields → s.delivered = false → (deliver ua s).1 = .error e →
      getattrPromise ua fields s attr
        = (.raised e, (deliver ua s).2.1, (deliver ua s).2.2)) := by
  constructor
  · intro hout; simp [getattrPromise, hout]
  · intro hmem hdel herr
    rcases hds : deliver ua s with ⟨r, s', n⟩
    have hr : r = .error e := by rw [hds] at herr; exact herr
    subst hr
    simp [getattrPromise, hmem, hdel, hds]

/-- Witness for C8: an undeclared name, then a declared field on an
undelivered, location-less instance whose delivery fails. -/
theorem c8_witness :
    getattrPromise mockTransport ["name"] initOld "secret"
      = (.attrError, initOld, 0) ∧
    getattrPromise mockTransport ["name"] initOld "name"
      = (.raised (.promised .noLocation), (deliver mockTransport initOld).2.1,
          (deliver mockTransport initOld).2.2) :=
  ⟨(c8_getattr_delivers_and_propagates mockTransport ["name"] initOld "secret"
      (.promised .noLocation)).1 (by decide),
   (c8_getattr_delivers_and_propagates mockTransport ["name"] initOld "name"
      (.promised .noLocation)).2 (by decide) rfl rfl⟩

/-- C4, counterexample: in the `src/promise.py` variant, the plain
constructor (`PromiseObject.__init__`) leaves the instance *undelivered*
(`self._delivered = False`), contradicting the claim that direct
construction starts in the delivered state. -/
theorem c4_counterexample_old_variant_starts_undelivered :
    ¬ (initOld.delivered = true) := by decide

/-- C4, amended: in the `src/remoteobjects/promise.py` variant a directly
constructed instance starts delivered and empty and its field reads
never perform a transport request; in the `src/promise.py` variant it
starts *undelivered*, but field reads still perform no transport request
(the implicit delivery fails at once for want of a location). -/
theorem c4_direct_construction_per_variant :
    initRemote.delivered = true ∧
    initRemote.apiData = some [] ∧
    (∀ (ua : Transport) (f : String),
      (readFieldRemote ua initRemote f).2.2 = 0 ∧
      (readFieldRemote ua initRemote f).1 = .ok none) ∧
    initOld.delivered = false ∧
    (∀ (ua : Transport) (fields : List String) (attr : String),
      (getattrPromise ua fields initOld attr).2.2 = 0) := by
  refine ⟨rfl, rfl, fun ua f => ⟨rfl, rfl⟩, rfl, fun ua fields attr => ?_⟩
  by_cases h : attr ∈ fields
  · simp [getattrPromise, h, initOld, deliver]
  · simp [getattrPromise, h]

/-- C5: `filter` leaves the receiver untouched and performs no transport
request; the returned object is a freshly constructed undelivered
instance bound to the merged-query URL, carrying the receiver's
transport override.  Both variants (`PromiseObject.filter` and
`ListObject.filter` share the body). -/
theorem c5_filter_is_pure_and_returns_fresh_view (s : PromiseState) (u : String)
    (params : AList String String) (_hloc : s.location = some u) :
    filterRemoteAt s u params = (s, getRemote (filterUrlOf u params) s.http, 0) ∧
    (filterRemoteAt s u params).1 = s ∧
    (filterRemoteAt s u params).2.1.delivered = false ∧
    (filterRemoteAt s u params).2.1.location = some (filterUrlOf u params) ∧
    (filterRemoteAt s u params).2.1.http = s.http ∧
    (filterRemoteAt s u params).2.2 = 0 ∧
    filterListAt s u params = (s, getOld (filterUrlOf u params) s.http, 0) ∧
    (filterListAt s u params).2.1.delivered = false ∧
    (filterListAt s u params).2.1.location = some (filterUrlOf u params) ∧
    (filterListAt s u params).2.1.http = s.http ∧
    (filterListAt s u params).2.2 = 0 :=
  ⟨rfl, rfl, rfl, rfl, rfl, rfl, rfl, rfl, rfl, rfl, rfl⟩

/-- Witness for C5: the filter test's receiver and parameters. -/
theorem c5_witness :
    filterListAt (getOld "http://example.com/foo" (some mockTransport))
        "http://example.com/foo" [("limit", "10"), ("offset", "7")]
      = (getOld "http://example.com/foo" (some mockTransport),
          getOld (filterUrlOf "http://example.com/foo" [("limit", "10"), ("offset", "7")])
            (some mockTransport), 0) ∧
    (filterListAt (getOld "http://example.com/foo" (some mockTransport))
        "http://example.com/foo" [("limit", "10"), ("offset", "7")]).2.1.delivered
      = false ∧
    (filterListAt (getOld "http://example.com/foo" (some mockTransport))
        "http://example.com/foo" [("limit", "10"), ("offset", "7")]).2.1.http
      = some mockTransport :=
  have h := c5_filter_is_pure_and_returns_fresh_view
    (getOld "http://example.com/foo" (some mockTransport)) "http://example.com/foo"
    [("limit", "10"), ("offset", "7")] rfl
  ⟨h.2.2.2.2.2.2.1, h.2.2.2.2.2.2.2.1, h.2.2.2.2.2.2.2.2.2.1⟩

/-- C7: slicing an undelivered `ListObject` is `filter(offset=start,
limit=stop-start)` — a fresh undelivered view, not elements — and an
ordinal key raises `TypeError`, since no class in the repository's chain
provides ordinal `__getitem__`.  Concretely, `obj[0:5]` on an instance
at `http://example.com/foo` is located at
`http://example.com/foo?limit=5&offset=0` (CPython 2's dict iterates
`limit`, slot 4, before `offset`, slot 7), whose query contains both the
`offset=0` and the `limit=5` parameter. -/
theorem c7_slice_filters_ordinal_type_errors (s : PromiseState) (u : String)
    (a b i : Int) (_hloc : s.location = some u) :
    listGetitemAt s u (.slice a b)
      = (.view (getOld (filterUrlOf u
          [("offset", toString a), ("limit", toString (b - a))]) s.http), 0) ∧
    (∃ o, (listGetitemAt s u (.slice a b)).1 = .view o ∧ o.delivered = false ∧
      o.location = some (filterUrlOf u
        [("offset", toString a), ("limit", toString (b - a))])) ∧
    listGetitemAt s u (.ordinal i) = (.typeErrorRaised, 0) ∧
    (listGetitemAt (getOld "http://example.com/foo" none) "http://example.com/foo"
        (.slice 0 5)).1
      = .view (getOld "http://example.com/foo?limit=5&offset=0" none) ∧
    alistGet? (parseQsl
      (urlparseM "http://example.com/foo?limit=5&offset=0").query) "offset"
      = some "0" ∧
    alistGet? (parseQsl
      (urlparseM "http://example.com/foo?limit=5&offset=0").query) "limit"
      = some "5" := by
  refine ⟨rfl, ⟨_, rfl, rfl, rfl⟩, rfl, ?_, by decide, by decide⟩
  rfl

/-- Witness for C7 at the receiver of the filter test. -/
theorem c7_witness :
    listGetitemAt (getOld "http://example.com/foo" none) "http://example.com/foo"
        (.slice 0 5)
      = (.view (getOld (filterUrlOf "http://example.com/foo"
          [("offset", toString (0 : Int)), ("limit", toString ((5 : Int) - 0))]) none), 0) ∧
    listGetitemAt (getOld "http://example.com/foo" none) "http://example.com/foo"
        (.ordinal 3)
      = (.typeErrorRaised, 0) :=
  have h := c7_slice_filters_ordinal_type_errors
    (getOld "http://example.com/foo" none) "http://example.com/foo" 0 5 3 rfl
  ⟨h.1, h.2.2.1⟩

/-- The raw mapping of `test_spooky_action`: `name`, `value`, and a
nested `secret` mapping, on the heap. -/
def spookyHeap : Heap :=
  { tops := [(0, [("name", .str "foo"), ("value", .str "4"), ("secret", .sub 1)])],
    subs := [(1, [("code", "uuddlrlrba")])] }

/-- C9, counterexample: at `test_spooky_action`'s mapping, mutating the
top-level key `name` of the original mapping *after* `from_dict` changes
the instance's field value to `"bar"` — the claim's shallow isolation
does not hold. -/
theorem c9_counterexample_top_level_mutation_observable :
    fieldRead (setTop spookyHeap (fromDict 0) "name" (.str "bar")) (fromDict 0) "name"
      = some (.str "bar") ∧
    some (RawVal.str "bar") ≠ some (RawVal.str "foo") := by
  exact ⟨rfl, by decide⟩

/-- C9, amended: `from_dict` retains the caller's mapping by reference,
so mutating a top-level key afterwards *is* observable in the instance's
field values, and mutating a nested sub-mapping reachable from the
retained raw mapping is observable in subsequent `to_dict()` output. -/
theorem c9_amended_retained_by_reference (h : Heap) (m : Addr)
    (d : AList String RawVal) (k : String) (v : String)
    (k0 : String) (a : Addr) (sd : AList String String) (k' v' : String)
    (hm : alistGet? h.tops m = some d)
    (hsub : alistGet? h.subs a = some sd)
    (hk0 : alistGet? d k0 = some (.sub a)) :
    fieldRead (setTop h (fromDict m) k (.str v)) (fromDict m) k = some (.str v) ∧
    alistGet? (toDictVal (setSub h a k' v') (fromDict m)) k0
      = some (.map (alistSet sd k' v')) := by
  constructor
  · unfold fieldRead setTop fromDict
    rw [hm]
    simp only [Option.getD_some]
    rw [alistGet?_alistSet_self]
    simp only [Option.some_bind]
    exact alistGet?_alistSet_self _ _ _
  · unfold toDictVal setSub fromDict
    rw [hm]
    simp only [Option.getD_some]
    rw [alistGet?_map_value, hk0]
    simp only [Option.map_some']
    simp [deepOf, alistGet?_alistSet_self, hsub]

/-- Witness for C9's amended statement at `test_spooky_action`'s data. -/
theorem c9_witness :
    fieldRead (setTop spookyHeap (fromDict 0) "name" (.str "bar")) (fromDict 0) "name"
      = some (.str "bar") ∧
    alistGet? (toDictVal (setSub spookyHeap 1 "code" "steak") (fromDict 0)) "secret"
      = some (.map (alistSet [("code", "uuddlrlrba")] "code" "steak")) :=
  c9_amended_retained_by_reference spookyHeap 0
    [("name", .str "foo"), ("value", .str "4"), ("secret", .sub 1)]
    "name" "bar" "secret" 1 [("code", "uuddlrlrba")] "code" "steak"
    rfl rfl rfl

/-! ### `parse_qs` keeps groups in first-occurrence order; `filter` keeps
only the head of each group -/

theorem alistGet?_eq_none_of_not_mem {κ α : Type} [DecidableEq κ]
    (d : AList κ α) (k : κ) (h : k ∉ alistKeys d) : alistGet? d k = none := by
  induction d with
  | nil => rfl
  | cons hd tl ih =>
      obtain ⟨k', v'⟩ := hd
      rw [alistKeys_cons, List.mem_cons] at h
      push_neg at h
      simp [alistGet?, Ne.symm h.1, ih h.2]

theorem qsAdd_nil (k : String) (v : String) : qsAdd [] k v = [(k, [v])] := rfl

theorem qsAdd_cons (k0 : String) (vs : List String) (tl : AList String (List String))
    (k : String) (v : String) :
    qsAdd ((k0, vs) :: tl) k v
      = if k0 = k then (k0, vs ++ [v]) :: tl else (k0, vs) :: qsAdd tl k v := rfl

theorem firstOnly_nil : firstOnly [] = [] := rfl

theorem firstOnly_cons_nil (k : String) (tl : AList String (List String)) :
    firstOnly ((k, []) :: tl) = firstOnly tl := rfl

theorem firstOnly_cons_cons (k : String) (v0 : String) (vrest : List String)
    (tl : AList String (List String)) :
    firstOnly ((k, v0 :: vrest) :: tl) = (k, v0) :: firstOnly tl := rfl

theorem alistGet?_firstOnly_of_not_mem (d : AList String (List String)) (k : String)
    (h : k ∉ alistKeys d) : alistGet? (firstOnly d) k = none := by
  induction d with
  | nil => rfl
  | cons hd tl ih =>
      obtain ⟨k', vs⟩ := hd
      rw [alistKeys_cons, List.mem_cons] at h
      push_neg at h
      cases vs with
      | nil => rw [firstOnly_cons_nil]; exact ih h.2
      | cons v0 vrest =>
          rw [firstOnly_cons_cons, alistGet?_cons, if_neg (Ne.symm h.1)]
          exact ih h.2

theorem allNonempty_qsAdd (d : AList String (List String)) (k : String) (v : String)
    (h : allNonempty d) : allNonempty (qsAdd d k v) := by
  induction d with
  | nil =>
      intro p hp
      have hp' : p = (k, [v]) := by simpa [qsAdd_nil] using hp
      subst hp'
      simp
  | cons hd tl ih =>
      obtain ⟨k', vs⟩ := hd
      by_cases h2 : k' = k
      · intro p hp
        rw [qsAdd_cons, if_pos h2] at hp
        rcases List.mem_cons.mp hp with hp | hp
        · subst hp; simp
        · exact h p (List.mem_cons_of_mem _ hp)
      · intro p hp
        rw [qsAdd_cons, if_neg h2] at hp
        rcases List.mem_cons.mp hp with hp | hp
        · subst hp; exact h (k', vs) (List.mem_cons_self _ _)
        · exact ih (fun p' hp' => h p' (List.mem_cons_of_mem _ hp')) p hp

theorem mem_alistKeys_qsAdd (d : AList String (List String)) (k k' : String) (v : String) :
    k' ∈ alistKeys (qsAdd d k v) ↔ k' ∈ alistKeys d ∨ k' = k := by
  induction d with
  | nil => simp [qsAdd_nil]
  | cons hd tl ih =>
      obtain ⟨k0, vs⟩ := hd
      by_cases h2 : k0 = k
      · subst h2
        rw [qsAdd_cons, if_pos rfl, alistKeys_cons, alistKeys_cons]
        simp only [List.mem_cons]
        tauto
      · rw [qsAdd_cons, if_neg h2, alistKeys_cons, alistKeys_cons]
        simp only [List.mem_cons, ih]
        tauto

theorem alistKeys_qsAdd (d : AList String (List String)) (k : String) (v : String) :
    alistKeys (qsAdd d k v)
      = if k ∈ alistKeys d then alistKeys d else alistKeys d ++ [k] := by
  induction d with
  | nil => simp [qsAdd_nil]
  | cons hd tl ih =>
      obtain ⟨k0, vs⟩ := hd
      by_cases h2 : k0 = k
      · subst h2
        rw [qsAdd_cons, if_pos rfl, alistKeys_cons, alistKeys_cons,
          if_pos (List.mem_cons_self _ _)]
      · rw [qsAdd_cons, if_neg h2, alistKeys_cons, alistKeys_cons, ih]
        by_cases hmem : k ∈ alistKeys tl
        · rw [if_pos hmem, if_pos (List.mem_cons.mpr (Or.inr hmem))]
        · rw [if_neg hmem, if_neg (by
            rw [List.mem_cons]
            push_neg
            exact ⟨fun hk => h2 hk.symm, hmem⟩), List.cons_append]

theorem alistGet?_firstOnly_qsAdd_mem (d : AList String (List String)) (k : String)
    (v : String) (hne : allNonempty d) (hmem : k ∈ alistKeys d) :
    alistGet? (firstOnly (qsAdd d k v)) k = alistGet? (firstOnly d) k := by
  induction d with
  | nil => cases hmem
  | cons hd tl ih =>
      obtain ⟨k0, vs⟩ := hd
      have hvs : vs ≠ [] := hne (k0, vs) (List.mem_cons_self _ _)
      obtain ⟨v0, vrest, rfl⟩ := List.exists_cons_of_ne_nil hvs
      by_cases h2 : k0 = k
      · subst h2
        rw [qsAdd_cons, if_pos rfl, List.cons_append, firstOnly_cons_cons,
          firstOnly_cons_cons]
      · have hmem' : k ∈ alistKeys tl := by
          rcases List.mem_cons.mp hmem with h3 | h3
          · exact absurd h3.symm h2
          · exact h3
        have ihr := ih (fun p hp => hne p (List.mem_cons_of_mem _ hp)) hmem'
        rw [qsAdd_cons, if_neg h2, firstOnly_cons_cons, firstOnly_cons_cons,
          alistGet?_cons, alistGet?_cons, if_neg h2, if_neg h2, ihr]

theorem alistGet?_firstOnly_qsAdd_new (d : AList String (List String)) (k : String)
    (v : String) (hmem : k ∉ alistKeys d) :
    alistGet? (firstOnly (qsAdd d k v)) k = some v := by
  induction d with
  | nil => simp [qsAdd_nil, firstOnly_cons_cons]
  | cons hd tl ih =>
      obtain ⟨k0, vs⟩ := hd
      rw [alistKeys_cons, List.mem_cons] at hmem
      push_neg at hmem
      have h2 : k0 ≠ k := Ne.symm hmem.1
      cases vs with
      | nil =>
          rw [qsAdd_cons, if_neg h2, firstOnly_cons_nil]
          exact ih hmem.2
      | cons v0 vrest =>
          rw [qsAdd_cons, if_neg h2, firstOnly_cons_cons, alistGet?_cons, if_neg h2]
          exact ih hmem.2

theorem alistGet?_firstOnly_qsAdd_other (d : AList String (List String)) (k k' : String)
    (v : String) (hne : k' ≠ k) :
    alistGet? (firstOnly (qsAdd d k' v)) k = alistGet? (firstOnly d) k := by
  induction d with
  | nil =>
      rw [qsAdd_nil, firstOnly_cons_cons, firstOnly_nil, alistGet?_cons, if_neg hne]
  | cons hd tl ih =>
      obtain ⟨k0, vs⟩ := hd
      by_cases h2 : k0 = k'
      · subst h2
        cases vs with
        | nil =>
            rw [qsAdd_cons, if_pos rfl, List.nil_append, firstOnly_cons_cons,
              firstOnly_cons_nil, alistGet?_cons, if_neg hne]
        | cons v0 vrest =>
            rw [qsAdd_cons, if_pos rfl, List.cons_append, firstOnly_cons_cons,
              firstOnly_cons_cons]
      · cases vs with
        | nil => rw [qsAdd_cons, if_neg h2, firstOnly_cons_nil, firstOnly_cons_nil, ih]
        | cons v0 vrest =>
            rw [qsAdd_cons, if_neg h2, firstOnly_cons_cons, firstOnly_cons_cons,
              alistGet?_cons, alistGet?_cons, ih]

theorem alistGet?_firstOnly_foldQs_mem (l : List (String × String))
    (acc : AList String (List String)) (k : String)
    (hne : allNonempty acc) (hmem : k ∈ alistKeys acc) :
    alistGet? (firstOnly (foldQs acc l)) k = alistGet? (firstOnly acc) k := by
  induction l generalizing acc with
  | nil => rfl
  | cons hd tl ih =>
      obtain ⟨k1, v1⟩ := hd
      have hne' := allNonempty_qsAdd acc k1 v1 hne
      have hmem' : k ∈ alistKeys (qsAdd acc k1 v1) :=
        (mem_alistKeys_qsAdd acc k1 k v1).mpr (Or.inl hmem)
      have step : foldQs acc ((k1, v1) :: tl) = foldQs (qsAdd acc k1 v1) tl := rfl
      rw [step, ih _ hne' hmem']
      by_cases h2 : k1 = k
      · subst h2; exact alistGet?_firstOnly_qsAdd_mem acc k1 v1 hne hmem
      · exact alistGet?_firstOnly_qsAdd_other acc k k1 v1 h2

theorem alistGet?_firstOnly_foldQs_new (l : List (String × String))
    (acc : AList String (List String)) (k : String)
    (hne : allNonempty acc) (hmem : k ∉ alistKeys acc) :
    alistGet? (firstOnly (foldQs acc l)) k = alistGet? l k := by
  induction l generalizing acc with
  | nil => exact alistGet?_firstOnly_of_not_mem acc k hmem
  | cons hd tl ih =>
      obtain ⟨k1, v1⟩ := hd
      have hne' := allNonempty_qsAdd acc k1 v1 hne
      have step : foldQs acc ((k1, v1) :: tl) = foldQs (qsAdd acc k1 v1) tl := rfl
      by_cases h2 : k1 = k
      · subst h2
        have hmem' : k1 ∈ alistKeys (qsAdd acc k1 v1) :=
          (mem_alistKeys_qsAdd acc k1 k1 v1).mpr (Or.inr rfl)
        rw [step, alistGet?_firstOnly_foldQs_mem tl _ k1 hne' hmem',
          alistGet?_firstOnly_qsAdd_new acc k1 v1 hmem]
        simp [alistGet?]
      · have hmem' : k ∉ alistKeys (qsAdd acc k1 v1) := by
          rw [mem_alistKeys_qsAdd]
          push_neg
          exact ⟨hmem, fun hk => h2 hk.symm⟩
        rw [step, ih _ hne' hmem']
        simp [alistGet?, h2]

/-- The mapping `filter` derives from a query string answers, for every
key, the *first* value that key has in the raw parsed pair list. -/
theorem alistGet?_queryArgsOf (q : String) (k : String) :
    alistGet? (queryArgsOf q) k = alistGet? (parseQsl q) k :=
  alistGet?_firstOnly_foldQs_new (parseQsl q) [] k
    (fun p hp => absurd hp (List.not_mem_nil p)) (by simp)

theorem nodup_alistKeys_foldQs (l : List (String × String))
    (acc : AList String (List String)) (h : (alistKeys acc).Nodup) :
    (alistKeys (foldQs acc l)).Nodup := by
  induction l generalizing acc with
  | nil => exact h
  | cons hd tl ih =>
      obtain ⟨k1, v1⟩ := hd
      have step : foldQs acc ((k1, v1) :: tl) = foldQs (qsAdd acc k1 v1) tl := rfl
      rw [step]
      apply ih
      rw [alistKeys_qsAdd]
      by_cases hmem : k1 ∈ alistKeys acc
      · simpa [hmem] using h
      · simp [hmem, List.nodup_append, h]

theorem alistKeys_firstOnly_sublist (d : AList String (List String)) :
    (alistKeys (firstOnly d)).Sublist (alistKeys d) := by
  induction d with
  | nil => simp [firstOnly]
  | cons hd tl ih =>
      obtain ⟨k0, vs⟩ := hd
      cases vs with
      | nil =>
          simpa [firstOnly] using List.Sublist.cons k0 ih
      | cons v0 vrest =>
          simpa [firstOnly] using List.Sublist.cons₂ k0 ih

/-- The derived query mapping holds each key at most once. -/
theorem nodup_alistKeys_queryArgsOf (q : String) :
    (alistKeys (queryArgsOf q)).Nodup :=
  List.Nodup.sublist (alistKeys_firstOnly_sublist (parseQs q))
    (nodup_alistKeys_foldQs (parseQsl q) [] List.nodup_nil)

/-! ### Key-membership plumbing for the serialized query order -/

theorem filterMap_id_replicate_none (n : Nat) :
    (List.replicate n (none : Option String)).filterMap id = [] := by
  induction n with
  | zero => rfl
  | succ m ih => simp [List.replicate_succ, ih]

theorem mem_entries_tableInsert (t : List (Option String)) (key k : String)
    (h : k ∈ (tableInsert t key).filterMap id) :
    k ∈ t.filterMap id ∨ k = key := by
  unfold tableInsert at h
  rcases hslot : findSlot t key with _ | slot
  · rw [hslot] at h; exact Or.inl h
  · rw [hslot] at h
    rcases List.mem_filterMap.mp h with ⟨o, ho, hid⟩
    rcases List.mem_or_eq_of_mem_set ho with ho' | ho'
    · exact Or.inl (List.mem_filterMap.mpr ⟨o, ho', hid⟩)
    · subst ho'
      cases hid
      exact Or.inr rfl

theorem mem_entries_foldl_tableInsert (ks : List String) (t : List (Option String))
    (k : String) (h : k ∈ (ks.foldl tableInsert t).filterMap id) :
    k ∈ t.filterMap id ∨ k ∈ ks := by
  induction ks generalizing t with
  | nil => exact Or.inl h
  | cons k1 tl ih =>
      rcases ih (tableInsert t k1) h with h' | h'
      · rcases mem_entries_tableInsert t k1 k h' with h'' | h''
        · exact Or.inl h''
        · exact Or.inr (h'' ▸ List.mem_cons_self _ _)
      · exact Or.inr (List.mem_cons_of_mem _ h')

theorem mem_entries_resizeTable (t : List (Option String)) (k : String)
    (h : k ∈ (resizeTable t).filterMap id) : k ∈ t.filterMap id := by
  unfold resizeTable at h
  rcases mem_entries_foldl_tableInsert _ _ k h with h' | h'
  · rw [filterMap_id_replicate_none] at h'
    cases h'
  · exact h'

theorem mem_entries_dictSetKey (t : List (Option String)) (key k : String)
    (h : k ∈ (dictSetKey t key).filterMap id) :
    k ∈ t.filterMap id ∨ k = key := by
  unfold dictSetKey at h
  by_cases hcond : tableUsed (tableInsert t key) > tableUsed t ∧
      3 * tableUsed (tableInsert t key) ≥ 2 * (tableInsert t key).length
  · rw [if_pos hcond] at h
    exact mem_entries_tableInsert t key k (mem_entries_resizeTable _ k h)
  · rw [if_neg hcond] at h
    exact mem_entries_tableInsert t key k h

theorem mem_entries_foldl_dictSetKey (ks : List String) (t : List (Option String))
    (k : String) (h : k ∈ (ks.foldl dictSetKey t).filterMap id) :
    k ∈ t.filterMap id ∨ k ∈ ks := by
  induction ks generalizing t with
  | nil => exact Or.inl h
  | cons k1 tl ih =>
      rcases ih (dictSetKey t k1) h with h' | h'
      · rcases mem_entries_dictSetKey t k1 k h' with h'' | h''
        · exact Or.inl h''
        · exact Or.inr (h'' ▸ List.mem_cons_self _ _)
      · exact Or.inr (List.mem_cons_of_mem _ h')

theorem mem_py2Order (ks : List String) (k : String) (h : k ∈ py2Order ks) :
    k ∈ ks := by
  unfold py2Order at h
  rcases mem_entries_foldl_dictSetKey ks _ k h with h' | h'
  · rw [filterMap_id_replicate_none] at h'
    cases h'
  · exact h'

theorem mem_filterKeyOrder (q : String) (params : AList String String) (k : String)
    (h : k ∈ filterKeyOrder q params) :
    k ∈ (parseQsl q).map Prod.fst ∨ k ∈ alistKeys params := by
  unfold filterKeyOrder at h
  rcases mem_entries_foldl_dictSetKey _ _ k h with h' | h'
  · rw [filterMap_id_replicate_none] at h'
    cases h'
  · rcases List.mem_append.mp h' with h'' | h''
    · exact Or.inl (mem_py2Order _ k h'')
    · exact Or.inr (mem_py2Order _ k h'')

theorem mem_alistKeys_alistSet_self {κ α : Type} [DecidableEq κ]
    (d : AList κ α) (k : κ) (v : α) : k ∈ alistKeys (alistSet d k v) := by
  induction d with
  | nil => simp [alistSet]
  | cons hd tl ih =>
      obtain ⟨k', v'⟩ := hd
      by_cases h2 : k' = k
      · simp [alistSet, h2]
      · rw [alistSet, if_neg h2, alistKeys_cons]
        exact List.mem_cons_of_mem _ ih

theorem mem_alistKeys_alistSet_of_mem {κ α : Type} [DecidableEq κ]
    (d : AList κ α) (k k' : κ) (v : α) (h : k ∈ alistKeys d) :
    k ∈ alistKeys (alistSet d k' v) := by
  induction d with
  | nil => cases h
  | cons hd tl ih =>
      obtain ⟨k0, v0⟩ := hd
      by_cases h2 : k0 = k'
      · rw [alistSet, if_pos h2, alistKeys_cons]
        rcases List.mem_cons.mp h with h3 | h3
        · exact h3 ▸ List.mem_cons_self _ _
        · exact List.mem_cons_of_mem _ h3
      · rw [alistSet, if_neg h2, alistKeys_cons]
        rcases List.mem_cons.mp h with h3 | h3
        · exact h3 ▸ List.mem_cons_self _ _
        · exact List.mem_cons_of_mem _ (ih h3)

theorem mem_alistKeys_alistUpdate_left {κ α : Type} [DecidableEq κ]
    (ps : AList κ α) (d : AList κ α) (k : κ) (h : k ∈ alistKeys d) :
    k ∈ alistKeys (alistUpdate d ps) := by
  induction ps generalizing d with
  | nil => exact h
  | cons hd tl ih =>
      obtain ⟨k1, v1⟩ := hd
      exact ih (alistSet d k1 v1) (mem_alistKeys_alistSet_of_mem d k k1 v1 h)

theorem mem_alistKeys_alistUpdate_right {κ α : Type} [DecidableEq κ]
    (ps : AList κ α) (d : AList κ α) (k : κ) (h : k ∈ alistKeys ps) :
    k ∈ alistKeys (alistUpdate d ps) := by
  induction ps generalizing d with
  | nil => cases h
  | cons hd tl ih =>
      obtain ⟨k1, v1⟩ := hd
      rcases List.mem_cons.mp h with h3 | h3
      · subst h3
        exact mem_alistKeys_alistUpdate_left tl (alistSet d k v1) k
          (mem_alistKeys_alistSet_self d k v1)
      · exact ih (alistSet d k1 v1) h3

theorem allNonempty_foldQs (l : List (String × String))
    (acc : AList String (List String)) (h : allNonempty acc) :
    allNonempty (foldQs acc l) := by
  induction l generalizing acc with
  | nil => exact h
  | cons hd tl ih => exact ih _ (allNonempty_qsAdd acc hd.1 hd.2 h)

theorem allNonempty_parseQs (q : String) : allNonempty (parseQs q) :=
  allNonempty_foldQs (parseQsl q) [] (fun p hp => absurd hp (List.not_mem_nil p))

theorem alistKeys_firstOnly (d : AList String (List String)) (h : allNonempty d) :
    alistKeys (firstOnly d) = alistKeys d := by
  induction d with
  | nil => rfl
  | cons hd tl ih =>
      obtain ⟨k0, vs⟩ := hd
      have hvs : vs ≠ [] := h (k0, vs) (List.mem_cons_self _ _)
      obtain ⟨v0, vrest, rfl⟩ := List.exists_cons_of_ne_nil hvs
      rw [firstOnly_cons_cons, alistKeys_cons, alistKeys_cons,
        ih (fun p hp => h p (List.mem_cons_of_mem _ hp))]

theorem mem_alistKeys_foldQs_of_mem (l : List (String × String))
    (acc : AList String (List String)) (k : String)
    (h : k ∈ l.map Prod.fst ∨ k ∈ alistKeys acc) :
    k ∈ alistKeys (foldQs acc l) := by
  induction l generalizing acc with
  | nil =>
      rcases h with h | h
      · cases h
      · exact h
  | cons hd tl ih =>
      obtain ⟨k1, v1⟩ := hd
      apply ih (qsAdd acc k1 v1)
      rcases h with h | h
      · rcases List.mem_cons.mp h with h3 | h3
        · exact Or.inr ((mem_alistKeys_qsAdd acc k1 k v1).mpr (Or.inr h3))
        · exact Or.inl h3
      · exact Or.inr ((mem_alistKeys_qsAdd acc k1 k v1).mpr (Or.inl h))

theorem exists_alistGet?_of_mem {κ α : Type} [DecidableEq κ]
    (d : AList κ α) (k : κ) (h : k ∈ alistKeys d) :
    ∃ v, alistGet? d k = some v := by
  induction d with
  | nil => cases h
  | cons hd tl ih =>
      obtain ⟨k0, v0⟩ := hd
      by_cases h2 : k0 = k
      · exact ⟨v0, by simp [alistGet?, h2]⟩
      · have h3 : k ∈ alistKeys tl := by
          rcases List.mem_cons.mp h with h4 | h4
          · exact absurd h4.symm h2
          · exact h4
        obtain ⟨v, hv⟩ := ih h3
        exact ⟨v, by simp [alistGet?, h2, hv]⟩

theorem alistKeys_orderedItems (d : AList String String) (order : List String)
    (h : ∀ k ∈ order, k ∈ alistKeys d) :
    alistKeys (orderedItems d order) = order := by
  induction order with
  | nil => rfl
  | cons k rest ih =>
      obtain ⟨v, hv⟩ := exists_alistGet?_of_mem d k (h k (List.mem_cons_self _ _))
      have step : orderedItems d (k :: rest) = (k, v) :: orderedItems d rest := by
        unfold orderedItems
        simp [hv]
      rw [step, alistKeys_cons, ih (fun x hx => h x (List.mem_cons_of_mem _ hx))]

/-- Every key the final dict's iteration order lists is present in the
merged mapping, so the serialized items are exactly the merged content
read out in hash-slot order. -/
theorem alistKeys_orderedItems_filterKeyOrder (q : String) (params : AList String String) :
    alistKeys (orderedItems (mergedArgs q params) (filterKeyOrder q params))
      = filterKeyOrder q params := by
  apply alistKeys_orderedItems
  intro k hk
  rcases mem_filterKeyOrder q params k hk with h | h
  · apply mem_alistKeys_alistUpdate_left
    rw [show queryArgsOf q = firstOnly (parseQs q) from rfl,
      alistKeys_firstOnly (parseQs q) (allNonempty_parseQs q)]
    exact mem_alistKeys_foldQs_of_mem (parseQsl q) [] k (Or.inl h)
  · exact mem_alistKeys_alistUpdate_right params (queryArgsOf q) k h

/-- C6, counterexample: merging the fresh key `c` into the query
`a=1&b=2` does *not* append it — CPython 2's dict iterates in hash-slot
order (`a` in slot 0, `c` in slot 2, `b` in slot 3), so the derived
location is `?a=1&c=3&b=2`, not the claimed `?a=1&b=2&c=3`. -/
theorem c6_counterexample_not_insertion_ordered :
    filterUrlOf "http://example.com/foo?a=1&b=2" [("c", "3")]
      = "http://example.com/foo?a=1&c=3&b=2" ∧
    filterUrlOf "http://example.com/foo?a=1&b=2" [("c", "3")]
      ≠ "http://example.com/foo?a=1&b=2&c=3" := by
  constructor
  · rfl
  · decide

/-- C6, amended: `filter` parses the query into a mapping and merges the
parameters into it with new values overwriting same-named keys (so
repeated filtering composes last-write-wins: `a.filter(x=1).filter(x=2)`
yields query `x=2` only) and untouched keys keeping their first parsed
value; the rebuilt query serializes the merged content in the CPython 2
dict's hash-slot iteration order, which neither preserves the original
key order nor appends new keys (merging `c` into `a,b` serializes as
`a,c,b`). -/
theorem c6_amended_merge_overwrites_serializes_hash_order (q : String)
    (params : AList String String) (k : String) (v : String)
    (hnd : (alistKeys params).Nodup) :
    ((k, v) ∈ params → alistGet? (mergedArgs q params) k = some v) ∧
    (k ∉ alistKeys params →
      alistGet? (mergedArgs q params) k = alistGet? (queryArgsOf q) k) ∧
    alistKeys (orderedItems (mergedArgs q params) (filterKeyOrder q params))
      = filterKeyOrder q params ∧
    filterUrlOf (filterUrlOf "http://example.com/foo" [("x", "1")]) [("x", "2")]
      = "http://example.com/foo?x=2" ∧
    filterUrlOf "http://example.com/foo?a=1&b=2" [("c", "3")]
      = "http://example.com/foo?a=1&c=3&b=2" := by
  refine ⟨?_, ?_, alistKeys_orderedItems_filterKeyOrder q params, rfl, rfl⟩
  · intro hmem
    exact alistGet?_alistUpdate_mem params (queryArgsOf q) k v hnd hmem
  · intro hout
    exact alistGet?_alistUpdate_not_mem params (queryArgsOf q) k hout

/-- Witness for C6's amended statement at a two-key query with one
overwritten and one fresh parameter. -/
theorem c6_witness :
    ((("b" : String), ("3" : String)) ∈ ([("b", "3"), ("c", "4")] : AList String String) →
      alistGet? (mergedArgs "a=1&b=2" [("b", "3"), ("c", "4")]) "b" = some "3") ∧
    ("b" ∉ alistKeys ([("b", "3"), ("c", "4")] : AList String String) →
      alistGet? (mergedArgs "a=1&b=2" [("b", "3"), ("c", "4")]) "b"
        = alistGet? (queryArgsOf "a=1&b=2") "b") ∧
    alistKeys (orderedItems (mergedArgs "a=1&b=2" [("b", "3"), ("c", "4")])
        (filterKeyOrder "a=1&b=2" [("b", "3"), ("c", "4")]))
      = filterKeyOrder "a=1&b=2" [("b", "3"), ("c", "4")] ∧
    filterUrlOf (filterUrlOf "http://example.com/foo" [("x", "1")]) [("x", "2")]
      = "http://example.com/foo?x=2" ∧
    filterUrlOf "http://example.com/foo?a=1&b=2" [("c", "3")]
      = "http://example.com/foo?a=1&c=3&b=2" :=
  c6_amended_merge_overwrites_serializes_hash_order "a=1&b=2"
    [("b", "3"), ("c", "4")] "b" "3" (by decide)

/-- C10: when the location's query string repeats a key, the derived
mapping — and so the rebuilt query — keeps only the key's *first* value;
later values are dropped even when the key is not among the new filter
parameters.  Concretely, filtering `?a=1&a=2` by `b=3` keeps `a=1`
only. -/
theorem c10_repeated_query_keys_keep_first_value (q : String)
    (params : AList String String) (k : String)
    (hout : k ∉ alistKeys params) :
    alistGet? (mergedArgs q params) k = alistGet? (parseQsl q) k ∧
    (alistKeys (queryArgsOf q)).Nodup ∧
    parseQsl "a=1&a=2" = [("a", "1"), ("a", "2")] ∧
    filterUrlOf "http://example.com/foo?a=1&a=2" [("b", "3")]
      = "http://example.com/foo?a=1&b=3" := by
  refine ⟨?_, nodup_alistKeys_queryArgsOf q, by decide, rfl⟩
  unfold mergedArgs
  rw [alistGet?_alistUpdate_not_mem params (queryArgsOf q) k hout]
  exact alistGet?_queryArgsOf q k

/-- Witness for C10 at the repeated-key query `a=1&a=2`. -/
theorem c10_witness :
    alistGet? (mergedArgs "a=1&a=2" [("b", "3")]) "a"
      = alistGet? (parseQsl "a=1&a=2") "a" ∧
    (alistKeys (queryArgsOf "a=1&a=2")).Nodup ∧
    parseQsl "a=1&a=2" = [("a", "1"), ("a", "2")] ∧
    filterUrlOf "http://example.com/foo?a=1&a=2" [("b", "3")]
      = "http://example.com/foo?a=1&b=3" :=
  c10_repeated_query_keys_keep_first_value "a=1&a=2" [("b", "3")] "a" (by decide)

end RemoteObjects
